import Mathlib

/-!
Shallow embedding of the ChinaTagger tag-repository core (Go sources:
`main.go` and its near-duplicate variant). The data model mirrors the Go
structs `Subscriber`, `Tag`, `Data`; the operations mirror the bodies of
the command handlers (`/ct`, `/st`, `/dt`, `/lt`, `/mt`, `/stats`, the
`OnText` mention resolver) and the helpers `findTag`, `cleanEmptyTags`,
`loadData`, `saveData`.

Conventions of the embedding:
- Go `int64` becomes `Int`; `time.Time` becomes an opaque `Int` stamp
  (the code never inspects it).
- Go `len(s)` on a string counts UTF-8 bytes, so string-length checks use
  `String.utf8ByteSize`.
- `strings.ToLower` becomes `strToLower` (per-character lowercasing by
  `Char.toLower`, defined structurally so that it evaluates).
- The durable store is modelled by `SaveEnv`: `saveData` succeeds or fails
  according to `env.fails`, standing for `ioutil.WriteFile`'s outcome.
  Each handler returns the new in-memory state, an
  `Option (Except PersistErr Unit)` recording whether `saveData` was
  invoked and with which outcome (the Go handlers call `saveData()` as a
  bare statement, so that outcome never influences the returned reply),
  and the handler's reply.
-/

/-- Go struct `Subscriber`: a subscriber with ID and Username. -/
structure Subscriber where
  id : Int
  username : String
deriving DecidableEq

/-- Go struct `Tag`: a tag with its creator, description, and subscribers. -/
structure Tag where
  name : String
  creatorID : Int
  creatorName : String
  description : String
  subscribers : List Subscriber
  createdAt : Int
deriving DecidableEq

/-- Go struct `Data`: holds all tags. -/
structure Data where
  tags : List Tag
deriving DecidableEq

/-- The embedding of Go `strings.ToLower`: lower-case every character
(`Char.toLower`; basic-latin letters only, as Lean's `Char.toLower`).
Defined over the character list so that concrete instances reduce. -/
def strToLower (s : String) : String :=
  ⟨s.data.map Char.toLower⟩

/-- Persistence failure: `ioutil.WriteFile` returning a non-nil error. -/
inductive PersistErr where
  | ioError
deriving DecidableEq

/-- The modelled durable store: whether the next write fails. -/
structure SaveEnv where
  fails : Bool
deriving DecidableEq

/-- Go `saveData`: serialize and write the repository; fails iff the
underlying write fails. (The serialization itself is `encodeData` below.) -/
def saveData (env : SaveEnv) : Except PersistErr Unit :=
  if env.fails then Except.error PersistErr.ioError else Except.ok ()

/-- The loop body of Go `findTag`: scan `data.Tags` from index `i`,
returning the index and tag of the first case-insensitive name match
(`&data.Tags[i]` in Go is the pair of index and value here). -/
def findTagAux (n : String) : List Tag → Nat → Option (Nat × Tag)
  | [], _ => none
  | t :: ts, i => if strToLower t.name = n then some (i, t) else findTagAux n ts (i + 1)

/-- Go `findTag`: search for a tag by name (case-insensitive); returns the
first match together with its index into `data.Tags`. -/
def findTag (name : String) (d : Data) : Option (Nat × Tag) :=
  findTagAux (strToLower name) d.tags 0

/-- The append-based filter loop Go uses (`newTags := []Tag{}; for ... if p t
then newTags = append(newTags, t)`). -/
def goFilter {α : Type} (p : α → Bool) (l : List α) : List α :=
  l.foldl (fun acc t => if p t then acc ++ [t] else acc) []

/-- Go `cleanEmptyTags`: removes tags with no subscribers, then calls
`saveData()` (discarding its result). -/
def cleanEmptyTags (env : SaveEnv) (d : Data) : Data × Option (Except PersistErr Unit) :=
  (⟨goFilter (fun t => 0 < t.subscribers.length) d.tags⟩, some (saveData env))

/-- The user-tag counting loop in the `/ct` handler:
`for _, tag := range data.Tags { if tag.CreatorID == c.Sender().ID { userTags++ } }`. -/
def countUserTags (cid : Int) (l : List Tag) : Nat :=
  l.foldl (fun n t => if t.creatorID == cid then n + 1 else n) 0

/-- Error replies of the `/ct` handler, as the spec's error kinds. -/
inductive CreateErr where
  | invalidName
  | duplicateTag
  | quotaExceeded
  | descriptionTooLong
deriving DecidableEq

/-- The `/ct` handler (Create). `name` is the first argument token (`""`
models the missing-argument reply), `description` the join of the rest.
Checks, in the source's order: missing/overlong name, duplicate
(case-insensitive), creator quota (10), description length; then appends
the new tag with an empty subscriber list and calls `saveData()`
(discarding its result). -/
def createTag (env : SaveEnv) (now : Int) (cid : Int) (cname : String)
    (name : String) (description : String) (d : Data) :
    Data × Option (Except PersistErr Unit) × Except CreateErr Tag :=
  if name = "" then (d, none, Except.error CreateErr.invalidName)
  else if 50 < name.utf8ByteSize then (d, none, Except.error CreateErr.invalidName)
  else if (findTag name d).isSome then (d, none, Except.error CreateErr.duplicateTag)
  else if 10 ≤ countUserTags cid d.tags then (d, none, Except.error CreateErr.quotaExceeded)
  -- Go guards this check with `len(args) > 1`, i.e. a non-empty description;
  -- an empty description is never over 100 bytes, so the guard is redundant.
  else if 100 < description.utf8ByteSize then (d, none, Except.error CreateErr.descriptionTooLong)
  else
    let tag : Tag := ⟨name, cid, cname, description, [], now⟩
    (⟨d.tags ++ [tag]⟩, some (saveData env), Except.ok tag)

/-- Error replies of the `/st` handler. -/
inductive SubErr where
  | notFound
  | alreadySubscribed
deriving DecidableEq

/-- The `/st` handler (Subscribe): find the tag (case-insensitive); reply
`notFound` if absent, `alreadySubscribed` if the sender's id is already in
its subscriber list; otherwise append a `Subscriber` (with the placeholder
`"User" + id` when the sender has no username) and call `saveData()`
(discarding its result). -/
def subscribeTag (env : SaveEnv) (uid : Int) (uname : String) (name : String) (d : Data) :
    Data × Option (Except PersistErr Unit) × Except SubErr Unit :=
  match findTag name d with
  | none => (d, none, Except.error SubErr.notFound)
  | some (i, t) =>
    if t.subscribers.any (fun s => s.id == uid) then
      (d, none, Except.error SubErr.alreadySubscribed)
    else
      let uname2 := if uname = "" then "User" ++ toString uid else uname
      let t2 : Tag := { t with subscribers := t.subscribers ++ [⟨uid, uname2⟩] }
      (⟨d.tags.set i t2⟩, some (saveData env), Except.ok ())

/-- Error replies of the `/dt` handler. -/
inductive DelErr where
  | notFound
  | forbidden
deriving DecidableEq

/-- The `/dt` handler (Delete): find the tag (case-insensitive); reply
`notFound` if absent; reply `forbidden` unless the requester is the tag's
creator or is privileged (`isAdmin` in the source, resolved externally);
otherwise keep exactly the tags whose lowercased name differs from the
found tag's, and call `saveData()` (discarding its result). -/
def deleteTag (env : SaveEnv) (uid : Int) (priv : Bool) (name : String) (d : Data) :
    Data × Option (Except PersistErr Unit) × Except DelErr Unit :=
  match findTag name d with
  | none => (d, none, Except.error DelErr.notFound)
  | some (_, t) =>
    if t.creatorID ≠ uid ∧ priv = false then (d, none, Except.error DelErr.forbidden)
    else
      (⟨goFilter (fun t2 => strToLower t2.name != strToLower t.name) d.tags⟩,
       some (saveData env), Except.ok ())

/-- The `/lt` handler (List): `cleanEmptyTags()` first, then one line per
remaining tag, in storage order, with name, subscriber count, description. -/
def listTags (env : SaveEnv) (d : Data) :
    Data × Option (Except PersistErr Unit) × List (String × Nat × String) :=
  let p := cleanEmptyTags env d
  (p.1, p.2, p.1.tags.map (fun t => (t.name, t.subscribers.length, t.description)))

/-- The `/stats` handler (Stats): `cleanEmptyTags()` first, then one line
per remaining tag, in storage order, with name and subscriber count. -/
def statsTags (env : SaveEnv) (d : Data) :
    Data × Option (Except PersistErr Unit) × List (String × Nat) :=
  let p := cleanEmptyTags env d
  (p.1, p.2, p.1.tags.map (fun t => (t.name, t.subscribers.length)))

/-- The `/mt` handler (MyTags): a pure read; for every tag, for every
subscriber entry matching the sender's id, emit the tag's name and
description. No state change and no `saveData` call in the source. -/
def myTags (uid : Int) (d : Data) :
    Data × Option (Except PersistErr Unit) × List (String × String) :=
  (d, none,
   d.tags.foldl (fun acc t =>
     t.subscribers.foldl (fun acc2 s =>
       if s.id == uid then acc2 ++ [(t.name, t.description)] else acc2) acc) [])

/-- The mention-collecting inner loop of the `OnText` handler: keep the
usernames that are non-empty and differ from the synthesized placeholder
`"User" + id`. -/
def mentionablesOf (t : Tag) : List String :=
  t.subscribers.foldl (fun acc s =>
    if s.username != "" && s.username != "User" ++ toString s.id then
      acc ++ [s.username]
    else acc) []

/-! ## Persistence: the JSON document, `encoding/json` decoding, `loadData`

The persisted state is one JSON document. `JVal` is the JSON value tree
(`MarshalIndent`'s whitespace is immaterial). Decoding mirrors
`json.Unmarshal` into the Go structs: an absent or `null` field leaves the
zero value, a present field of the wrong shape is a type error (`none`),
and struct fields are matched by their `json:"..."` keys. The legacy
schema (`OldTag`/`OldData`) stores `subscribers` as a bare array of
integer ids. -/

/-- A JSON value. Timestamps are modelled as their `Int` stamp. -/
inductive JVal where
  | jnull
  | jstr (s : String)
  | jnum (n : Int)
  | jarr (xs : List JVal)
  | jobj (fields : List (String × JVal))

/-- Field lookup in a JSON object (encoded objects have unique keys). -/
def lookupField (fs : List (String × JVal)) (k : String) : Option JVal :=
  match fs with
  | [] => none
  | (k2, v) :: rest => if k2 = k then some v else lookupField rest k

/-- Decode a string struct field: absent or `null` leaves `""` (the Go zero
value); a non-string value is a type error. -/
def decStrField (fs : List (String × JVal)) (k : String) : Option String :=
  match lookupField fs k with
  | none => some ""
  | some JVal.jnull => some ""
  | some (JVal.jstr s) => some s
  | some _ => none

/-- Decode an integer struct field: absent or `null` leaves `0`. -/
def decIntField (fs : List (String × JVal)) (k : String) : Option Int :=
  match lookupField fs k with
  | none => some 0
  | some JVal.jnull => some 0
  | some (JVal.jnum n) => some n
  | some _ => none

/-- Decode one current-schema subscriber object. -/
def decodeSubscriber (v : JVal) : Option Subscriber :=
  match v with
  | JVal.jnull => some ⟨0, ""⟩
  | JVal.jobj fs => do
    let i ← decIntField fs "id"
    let u ← decStrField fs "username"
    some ⟨i, u⟩
  | _ => none

/-- Decode a current-schema subscriber array element-wise. -/
def decodeSubsList : List JVal → Option (List Subscriber)
  | [] => some []
  | v :: vs => do
    let s ← decodeSubscriber v
    let ss ← decodeSubsList vs
    some (s :: ss)

/-- Decode one current-schema tag object. -/
def decodeTag (v : JVal) : Option Tag :=
  match v with
  | JVal.jobj fs => do
    let n ← decStrField fs "name"
    let cid ← decIntField fs "creator_id"
    let cn ← decStrField fs "creator_name"
    let dsc ← decStrField fs "description"
    let subs ← match lookupField fs "subscribers" with
      | none => some []
      | some JVal.jnull => some []
      | some (JVal.jarr xs) => decodeSubsList xs
      | some _ => none
    let ca ← decIntField fs "created_at"
    some ⟨n, cid, cn, dsc, subs, ca⟩
  | _ => none

/-- Decode a current-schema tag array element-wise. -/
def decodeTagsList : List JVal → Option (List Tag)
  | [] => some []
  | v :: vs => do
    let t ← decodeTag v
    let ts ← decodeTagsList vs
    some (t :: ts)

/-- `json.Unmarshal(file, &data)` under the current schema. -/
def decodeData (v : JVal) : Option Data :=
  match v with
  | JVal.jobj fs => do
    let ts ← match lookupField fs "tags" with
      | none => some []
      | some JVal.jnull => some []
      | some (JVal.jarr xs) => decodeTagsList xs
      | some _ => none
    some ⟨ts⟩
  | _ => none

/-- Go struct `OldTag`: the legacy schema, with `subscribers` a bare array
of integer ids. -/
structure OldTag where
  name : String
  creatorID : Int
  creatorName : String
  description : String
  subscribers : List Int
  createdAt : Int
deriving DecidableEq

/-- Go struct `OldData`. -/
structure OldData where
  tags : List OldTag
deriving DecidableEq

/-- Decode a legacy subscriber-id array element-wise. -/
def decodeOldSubs : List JVal → Option (List Int)
  | [] => some []
  | JVal.jnum n :: vs => do
    let ns ← decodeOldSubs vs
    some (n :: ns)
  | JVal.jnull :: vs => do
    let ns ← decodeOldSubs vs
    some (0 :: ns)
  | _ => none

/-- Decode one legacy-schema tag object. -/
def decodeOldTag (v : JVal) : Option OldTag :=
  match v with
  | JVal.jobj fs => do
    let n ← decStrField fs "name"
    let cid ← decIntField fs "creator_id"
    let cn ← decStrField fs "creator_name"
    let dsc ← decStrField fs "description"
    let subs ← match lookupField fs "subscribers" with
      | none => some []
      | some JVal.jnull => some []
      | some (JVal.jarr xs) => decodeOldSubs xs
      | some _ => none
    let ca ← decIntField fs "created_at"
    some ⟨n, cid, cn, dsc, subs, ca⟩
  | _ => none

/-- Decode a legacy-schema tag array element-wise. -/
def decodeOldTagsList : List JVal → Option (List OldTag)
  | [] => some []
  | v :: vs => do
    let t ← decodeOldTag v
    let ts ← decodeOldTagsList vs
    some (t :: ts)

/-- `json.Unmarshal(file, &oldData)` under the legacy schema. -/
def decodeOldData (v : JVal) : Option OldData :=
  match v with
  | JVal.jobj fs => do
    let ts ← match lookupField fs "tags" with
      | none => some []
      | some JVal.jnull => some []
      | some (JVal.jarr xs) => decodeOldTagsList xs
      | some _ => none
    some ⟨ts⟩
  | _ => none

/-- The migration loop of `loadData`: every legacy subscriber id gets the
placeholder username `"User" + id`. -/
def migrateOldData (old : OldData) : Data :=
  ⟨old.tags.map (fun ot =>
    ⟨ot.name, ot.creatorID, ot.creatorName, ot.description,
     ot.subscribers.map (fun i => ⟨i, "User" ++ toString i⟩), ot.createdAt⟩)⟩

/-- `json.Marshal` of a `Subscriber` (struct field order). -/
def encodeSubscriber (s : Subscriber) : JVal :=
  JVal.jobj [("id", JVal.jnum s.id), ("username", JVal.jstr s.username)]

/-- `json.Marshal` of a `Tag` (struct field order). -/
def encodeTag (t : Tag) : JVal :=
  JVal.jobj [("name", JVal.jstr t.name),
             ("creator_id", JVal.jnum t.creatorID),
             ("creator_name", JVal.jstr t.creatorName),
             ("description", JVal.jstr t.description),
             ("subscribers", JVal.jarr (t.subscribers.map encodeSubscriber)),
             ("created_at", JVal.jnum t.createdAt)]

/-- `json.MarshalIndent` of `Data`: the document `saveData` writes. -/
def encodeData (d : Data) : JVal :=
  JVal.jobj [("tags", JVal.jarr (d.tags.map encodeTag))]

/-- Load failures surfaced by `loadData`. -/
inductive LoadErr where
  | corruptState
  | ioError
deriving DecidableEq

/-- Go `loadData`: `stored = none` models a missing file (initialize empty
and `return saveData()`); otherwise try the current schema, fall back to
the legacy schema with migration and an immediate, error-checked
re-persist, and fail with `corruptState` when neither parses. The `Bool`
records whether a (re-)persist was attempted. -/
def loadData (env : SaveEnv) (stored : Option JVal) : Except LoadErr Data × Bool :=
  match stored with
  | none =>
    match saveData env with
    | Except.error _ => (Except.error LoadErr.ioError, true)
    | Except.ok _ => (Except.ok ⟨[]⟩, true)
  | some v =>
    match decodeData v with
    | some d => (Except.ok d, false)
    | none =>
      match decodeOldData v with
      | none => (Except.error LoadErr.corruptState, false)
      | some old =>
        match saveData env with
        | Except.error _ => (Except.error LoadErr.ioError, true)
        | Except.ok _ => (Except.ok (migrateOldData old), true)

/-- The `OnText` handler's resolution step (ResolveMentions): the candidate
names extracted from the message are processed in order; for each that
matches a tag (case-insensitive), the mentionable usernames are collected,
and a response block is appended only when that list is non-empty. -/
def resolveMentions (d : Data) (cands : List String) : List (String × List String) :=
  cands.foldl (fun acc c =>
    match findTag c d with
    | none => acc
    | some (_, t) =>
      let ms := mentionablesOf t
      if 0 < ms.length then acc ++ [(c, ms)] else acc) []

/-- The claim's per-candidate description of mention resolution: if the
candidate matches a tag (case-insensitive), keep exactly the subscriber
display names that are non-empty and differ from that subscriber's
placeholder; drop the tag entirely when none remain. Stated from the
spec's words, to be compared with `resolveMentions`. -/
def specMentionStep (d : Data) (c : String) : Option (String × List String) :=
  match findTag c d with
  | none => none
  | some (_, t) =>
    let ms := (t.subscribers.filter
      (fun s => s.username != "" && s.username != "User" ++ toString s.id)).map
        Subscriber.username
    if ms = [] then none else some (c, ms)

/-! ## Concrete fixtures used by counterexamples and witnesses -/

/-- A repository with one tag `x` created by user 1, no subscribers. -/
def dX : Data := ⟨[⟨"x", 1, "alice", "", [], 0⟩]⟩

/-- A repository with one zero-subscriber tag `z`. -/
def dZ : Data := ⟨[⟨"z", 9, "zoe", "zz", [], 3⟩]⟩

/-- Ten distinct tags all created by user 1 (the `/ct` quota boundary). -/
def quotaTags : List Tag :=
  [⟨"t0", 1, "alice", "", [], 0⟩, ⟨"t1", 1, "alice", "", [], 0⟩,
   ⟨"t2", 1, "alice", "", [], 0⟩, ⟨"t3", 1, "alice", "", [], 0⟩,
   ⟨"t4", 1, "alice", "", [], 0⟩, ⟨"t5", 1, "alice", "", [], 0⟩,
   ⟨"t6", 1, "alice", "", [], 0⟩, ⟨"t7", 1, "alice", "", [], 0⟩,
   ⟨"t8", 1, "alice", "", [], 0⟩, ⟨"t9", 1, "alice", "", [], 0⟩]

/-- A 101-character (and 101-byte) ASCII description. -/
def descLong : String :=
  "aaaaaaaaaaaaaaaaaaaaaaaaaaaaaaaaaaaaaaaaaaaaaaaaaaaaaaaaaaaaaaaaaaaaaaaaaaaaaaaaaaaaaaaaaaaaaaaaaaaaa"

/-- A 26-character Cyrillic tag name: 52 UTF-8 bytes, so Go's `len` check
rejects it although it is well within 50 characters. -/
def cyrName : String := "яяяяяяяяяяяяяяяяяяяяяяяяяя"

/-- A repository already holding a tag named `cyrName`. -/
def cyrData : Data := ⟨[⟨cyrName, 3, "carol", "", [], 0⟩]⟩

/-- The spec's handcrafted legacy-schema document:
`{"tags":[{"name":"x","creator_id":1,"subscribers":[5,6]}]}`. -/
def legacyDoc : JVal :=
  JVal.jobj [("tags", JVal.jarr
    [JVal.jobj [("name", JVal.jstr "x"), ("creator_id", JVal.jnum 1),
                ("subscribers", JVal.jarr [JVal.jnum 5, JVal.jnum 6])]])]

/-! ## Helper lemmas -/

theorem foldl_guard_append {α β : Type} (p : α → Bool) (f : α → β) :
    ∀ (l : List α) (a : List β),
      l.foldl (fun acc s => if p s then acc ++ [f s] else acc) a = a ++ (l.filter p).map f
  | [], a => by simp
  | x :: l, a => by
    by_cases h : p x <;>
      simp [List.filter_cons, h, foldl_guard_append p f l, List.append_assoc]

theorem goFilter_eq_filter {α : Type} (p : α → Bool) (l : List α) :
    goFilter p l = l.filter p := by
  simpa [goFilter] using foldl_guard_append p id l []

theorem findTagAux_eq_none (n : String) :
    ∀ (l : List Tag) (i : Nat), findTagAux n l i = none ↔ ∀ t ∈ l, strToLower t.name ≠ n
  | [], i => by simp [findTagAux]
  | x :: ts, i => by
    by_cases h : strToLower x.name = n <;>
      simp [findTagAux, h, findTagAux_eq_none n ts (i + 1)]

theorem findTagAux_mem (n : String) :
    ∀ (l : List Tag) (i j : Nat) (t : Tag), findTagAux n l i = some (j, t) → t ∈ l
  | [], i, j, t => by simp [findTagAux]
  | x :: ts, i, j, t => by
    by_cases h : strToLower x.name = n
    · intro heq
      obtain ⟨-, rfl⟩ : i = j ∧ x = t := by simpa [findTagAux, h] using heq
      exact List.mem_cons_self _ _
    · intro heq
      exact List.mem_cons_of_mem _
        (findTagAux_mem n ts (i + 1) j t (by simpa [findTagAux, h] using heq))

theorem findTagAux_name (n : String) :
    ∀ (l : List Tag) (i j : Nat) (t : Tag), findTagAux n l i = some (j, t) →
      strToLower t.name = n
  | [], i, j, t => by simp [findTagAux]
  | x :: ts, i, j, t => by
    by_cases h : strToLower x.name = n
    · intro heq
      obtain ⟨-, rfl⟩ : i = j ∧ x = t := by simpa [findTagAux, h] using heq
      exact h
    · intro heq
      exact findTagAux_name n ts (i + 1) j t (by simpa [findTagAux, h] using heq)

theorem findTagAux_le (n : String) :
    ∀ (l : List Tag) (i j : Nat) (t : Tag), findTagAux n l i = some (j, t) → i ≤ j
  | [], i, j, t => by simp [findTagAux]
  | x :: ts, i, j, t => by
    by_cases h : strToLower x.name = n
    · intro heq
      obtain ⟨rfl, -⟩ : i = j ∧ x = t := by simpa [findTagAux, h] using heq
      exact Nat.le_refl _
    · intro heq
      exact Nat.le_of_succ_le
        (findTagAux_le n ts (i + 1) j t (by simpa [findTagAux, h] using heq))

theorem findTagAux_set (n : String) :
    ∀ (l : List Tag) (i j : Nat) (t t2 : Tag), findTagAux n l i = some (j, t) →
      strToLower t2.name = strToLower t.name →
      findTagAux n (l.set (j - i) t2) i = some (j, t2)
  | [], i, j, t, t2 => by simp [findTagAux]
  | x :: ts, i, j, t, t2 => by
    by_cases h : strToLower x.name = n
    · intro heq hname
      obtain ⟨rfl, rfl⟩ : i = j ∧ x = t := by simpa [findTagAux, h] using heq
      simp [Nat.sub_self, findTagAux, hname.trans h]
    · intro heq hname
      have heq2 : findTagAux n ts (i + 1) = some (j, t) := by
        simpa [findTagAux, h] using heq
      have hle := findTagAux_le n ts (i + 1) j t heq2
      have hji : j - i = (j - (i + 1)) + 1 := by omega
      rw [hji]
      simpa [findTagAux, h] using findTagAux_set n ts (i + 1) j t t2 heq2 hname

theorem findTagAux_append (n : String) :
    ∀ (l1 l2 : List Tag) (i : Nat), findTagAux n l1 i = none →
      findTagAux n (l1 ++ l2) i = findTagAux n l2 (i + l1.length)
  | [], l2, i => by simp [findTagAux]
  | x :: ts, l2, i => by
    intro hnone
    by_cases h : strToLower x.name = n
    · simp [findTagAux, h] at hnone
    · have hnone2 : findTagAux n ts (i + 1) = none := by
        simpa [findTagAux, h] using hnone
      have hrec := findTagAux_append n ts l2 (i + 1) hnone2
      have hlen : i + 1 + ts.length = i + (x :: ts).length := by
        simp only [List.length_cons]
        omega
      calc findTagAux n ((x :: ts) ++ l2) i
          = findTagAux n (ts ++ l2) (i + 1) := by simp [findTagAux, h]
        _ = findTagAux n l2 (i + 1 + ts.length) := hrec
        _ = findTagAux n l2 (i + (x :: ts).length) := by rw [hlen]

theorem filter_id_eq_nil (uid : Int) (l : List Subscriber)
    (h : l.any (fun s => s.id == uid) = false) :
    l.filter (fun s => s.id == uid) = [] := by
  rw [List.filter_eq_nil_iff]
  intro s hs
  have := (List.any_eq_false).mp h s hs
  simpa using this

theorem filter_id_length_one (uid : Int) :
    ∀ (l : List Subscriber), (l.map Subscriber.id).Nodup →
      l.any (fun s => s.id == uid) = true →
      (l.filter (fun s => s.id == uid)).length = 1
  | [], _, hany => by simp at hany
  | s :: l, hnd, hany => by
    obtain ⟨hnotin, hnd2⟩ := List.nodup_cons.mp hnd
    by_cases h : s.id = uid
    · have hnil : l.filter (fun s => s.id == uid) = [] := by
        rw [List.filter_eq_nil_iff]
        intro x hx
        simp only [beq_iff_eq]
        intro hxid
        have hmem : x.id ∈ l.map Subscriber.id := List.mem_map_of_mem Subscriber.id hx
        rw [hxid, ← h] at hmem
        exact hnotin hmem
      simp [List.filter_cons, h, hnil]
    · have hany2 : l.any (fun s => s.id == uid) = true := by
        simpa [List.any_cons, h] using hany
      simpa [List.filter_cons, h] using filter_id_length_one uid l hnd2 hany2

theorem mentionablesOf_eq (t : Tag) :
    mentionablesOf t =
      (t.subscribers.filter
        (fun s => s.username != "" && s.username != "User" ++ toString s.id)).map
          Subscriber.username := by
  simpa [mentionablesOf] using
    foldl_guard_append
      (fun s : Subscriber => s.username != "" && s.username != "User" ++ toString s.id)
      Subscriber.username t.subscribers []

theorem specMentionStep_eq (d : Data) (c : String) :
    specMentionStep d c =
      match findTag c d with
      | none => none
      | some (_, t) =>
        if mentionablesOf t = [] then none else some (c, mentionablesOf t) := by
  cases hft : findTag c d with
  | none => simp [specMentionStep, hft]
  | some p => simp [specMentionStep, hft, mentionablesOf_eq]

theorem resolveMentions_foldl (d : Data) :
    ∀ (cands : List String) (acc : List (String × List String)),
      cands.foldl (fun acc c =>
        match findTag c d with
        | none => acc
        | some (_, t) =>
          let ms := mentionablesOf t
          if 0 < ms.length then acc ++ [(c, ms)] else acc) acc
      = acc ++ cands.filterMap (specMentionStep d)
  | [], acc => by simp
  | c :: cs, acc => by
    rw [List.foldl_cons, resolveMentions_foldl d cs, List.filterMap_cons]
    cases hft : findTag c d with
    | none => simp [hft, specMentionStep_eq]
    | some p =>
      obtain ⟨i, t⟩ := p
      cases hms : mentionablesOf t with
      | nil => simp [hft, hms, specMentionStep_eq]
      | cons m ms2 => simp [hft, hms, specMentionStep_eq]

theorem decodeSubscriber_encode (s : Subscriber) :
    decodeSubscriber (encodeSubscriber s) = some s := rfl

theorem decodeSubsList_encode : ∀ (l : List Subscriber),
    decodeSubsList (l.map encodeSubscriber) = some l
  | [] => rfl
  | s :: l => by
    simp [decodeSubsList, decodeSubscriber_encode, decodeSubsList_encode l]

theorem decodeTag_encode (t : Tag) : decodeTag (encodeTag t) = some t := by
  simp [decodeTag, encodeTag, lookupField, decStrField, decIntField, decodeSubsList_encode]

theorem decodeTagsList_encode : ∀ (l : List Tag),
    decodeTagsList (l.map encodeTag) = some l
  | [] => rfl
  | t :: l => by
    simp [decodeTagsList, decodeTag_encode, decodeTagsList_encode l]

theorem decodeData_encode (d : Data) : decodeData (encodeData d) = some d := by
  simp [decodeData, encodeData, lookupField, decodeTagsList_encode]

/-! ## Claims -/

/-- C2: every mutating operation (Create, Subscribe, Delete, Prune) invokes
`saveData` synchronously before returning — but the Go handlers call it as
a bare statement `saveData()`, so when the write fails the error is
discarded and the handler still replies success, with the in-memory state
already mutated. Evaluated here at a failing store: the recorded persist
outcome is `ioError`, yet every reply is `ok` and the mutation stands. -/
theorem c2_persist_error_swallowed :
    saveData ⟨true⟩ = Except.error PersistErr.ioError ∧
    (createTag ⟨true⟩ 0 1 "alice" "x" "" ⟨[]⟩).2.1 =
      some (Except.error PersistErr.ioError) ∧
    (createTag ⟨true⟩ 0 1 "alice" "x" "" ⟨[]⟩).2.2 =
      Except.ok ⟨"x", 1, "alice", "", [], 0⟩ ∧
    (createTag ⟨true⟩ 0 1 "alice" "x" "" ⟨[]⟩).1.tags = [⟨"x", 1, "alice", "", [], 0⟩] ∧
    (subscribeTag ⟨true⟩ 7 "bob" "x" dX).2.1 = some (Except.error PersistErr.ioError) ∧
    (subscribeTag ⟨true⟩ 7 "bob" "x" dX).2.2 = Except.ok () ∧
    (deleteTag ⟨true⟩ 1 false "x" dX).2.1 = some (Except.error PersistErr.ioError) ∧
    (deleteTag ⟨true⟩ 1 false "x" dX).2.2 = Except.ok () ∧
    (cleanEmptyTags ⟨true⟩ dX).2 = some (Except.error PersistErr.ioError) ∧
    (cleanEmptyTags ⟨true⟩ dX).1.tags = [] :=
  ⟨rfl, rfl, rfl, rfl, rfl, rfl, rfl, rfl, rfl, rfl⟩

/-- C3: `Save` followed by `Load` reconstructs the repository exactly; a
document that fails the current schema but parses under the legacy schema
loads with the placeholder display name `"User" + id` for every migrated
subscriber and is immediately re-persisted; a document matching neither
schema fails with `CorruptState`. -/
theorem c3_save_load_roundtrip :
    (∀ (env : SaveEnv) (d : Data),
       loadData env (some (encodeData d)) = (Except.ok d, false)) ∧
    (∀ (env : SaveEnv) (v : JVal) (old : OldData), env.fails = false →
       decodeData v = none → decodeOldData v = some old →
       loadData env (some v) = (Except.ok (migrateOldData old), true) ∧
       ∀ t ∈ (migrateOldData old).tags, ∀ s ∈ t.subscribers,
         s.username = "User" ++ toString s.id) ∧
    (∀ (env : SaveEnv) (v : JVal), decodeData v = none → decodeOldData v = none →
       loadData env (some v) = (Except.error LoadErr.corruptState, false)) := by
  refine ⟨?_, ?_, ?_⟩
  · intro env d
    simp [loadData, decodeData_encode]
  · intro env v old henv hd ho
    refine ⟨by simp [loadData, hd, ho, saveData, henv], ?_⟩
    intro t ht s hs
    simp only [migrateOldData, List.mem_map] at ht
    obtain ⟨ot, hot, rfl⟩ := ht
    simp only [List.mem_map] at hs
    obtain ⟨i, hi, rfl⟩ := hs
    rfl
  · intro env v hd ho
    simp [loadData, hd, ho]

/-- C3 witness: the round trip at a concrete repository, the spec's
handcrafted legacy document (`{"tags":[{"name":"x","creator_id":1,
"subscribers":[5,6]}]}` yielding display names `User5`, `User6` and an
immediate re-persist), and a corrupt document. -/
theorem c3_witness :
    loadData ⟨false⟩ (some (encodeData dX)) = (Except.ok dX, false) ∧
    loadData ⟨false⟩ (some legacyDoc) =
      (Except.ok ⟨[⟨"x", 1, "", "", [⟨5, "User5"⟩, ⟨6, "User6"⟩], 0⟩]⟩, true) ∧
    loadData ⟨false⟩ (some (JVal.jstr "oops")) =
      (Except.error LoadErr.corruptState, false) := by
  refine ⟨c3_save_load_roundtrip.1 ⟨false⟩ dX, ?_,
    c3_save_load_roundtrip.2.2 ⟨false⟩ (JVal.jstr "oops") rfl rfl⟩
  have h := c3_save_load_roundtrip.2.1 ⟨false⟩ legacyDoc
    ⟨[⟨"x", 1, "", "", [5, 6], 0⟩]⟩ rfl rfl rfl
  exact h.1.trans (by rfl)

/-- C8: mention resolution processes the candidate names in input order
without deduplication, and for each candidate equals the spec's
description: a matching tag contributes exactly its subscribers' display
names that are non-empty and differ from `"User" + id`, and a tag with no
such mentionable subscriber is omitted from the result entirely. -/
theorem c8_resolve_mentions (d : Data) (cands : List String) :
    resolveMentions d cands = cands.filterMap (specMentionStep d) := by
  simpa [resolveMentions] using resolveMentions_foldl d cands []

/-- C9: MyTags is a pure read: it neither mutates the repository (any
zero-subscriber tags included) nor calls `saveData`; by contrast List and
Stats do change a repository that holds a zero-subscriber tag. -/
theorem c9_mytags_pure :
    (∀ (uid : Int) (d : Data), (myTags uid d).1 = d ∧ (myTags uid d).2.1 = none) ∧
    (myTags 9 dZ).1 = dZ ∧
    (listTags ⟨false⟩ dZ).1 ≠ dZ ∧ (statsTags ⟨false⟩ dZ).1 ≠ dZ :=
  ⟨fun _ _ => ⟨rfl, rfl⟩, rfl, by decide, by decide⟩

/-- C10: pruning removes exactly the zero-subscriber tags: the result is
the filter of the stored sequence, a sublist of it (so every retained tag
keeps all its fields and the relative order is preserved), and membership
is unchanged storage membership plus a positive subscriber count. -/
theorem c10_prune_exact (env : SaveEnv) (d : Data) :
    (cleanEmptyTags env d).1.tags = d.tags.filter (fun t => 0 < t.subscribers.length) ∧
    List.Sublist (cleanEmptyTags env d).1.tags d.tags ∧
    ∀ t : Tag, t ∈ (cleanEmptyTags env d).1.tags ↔
      t ∈ d.tags ∧ 0 < t.subscribers.length := by
  have hfe : (cleanEmptyTags env d).1.tags =
      d.tags.filter (fun t => 0 < t.subscribers.length) := by
    simp [cleanEmptyTags, goFilter_eq_filter]
  refine ⟨hfe, ?_, ?_⟩
  · rw [hfe]
    exact List.filter_sublist d.tags
  · intro t
    rw [hfe]
    simp [List.mem_filter]

/-- C1 (amended): Create applies its checks in the source's order — name
missing/over 50 UTF-8 bytes (`InvalidName`), duplicate under
case-insensitive comparison (`DuplicateTag`), creator already owning 10 or
more tags (`QuotaExceeded`), then description over 100 UTF-8 bytes
(`DescriptionTooLong`); no failed check mutates the repository or calls
`saveData`; on success the new tag, with an empty subscriber list and the
given fields, is appended, persisted and returned. -/
theorem c1_create_preconditions (env : SaveEnv) (now cid : Int) (cname name desc : String)
    (d : Data) :
    ((createTag env now cid cname name desc d).2.2 = Except.error CreateErr.invalidName ↔
       name = "" ∨ 50 < name.utf8ByteSize) ∧
    ((createTag env now cid cname name desc d).2.2 = Except.error CreateErr.duplicateTag ↔
       name ≠ "" ∧ name.utf8ByteSize ≤ 50 ∧ (findTag name d).isSome = true) ∧
    ((createTag env now cid cname name desc d).2.2 = Except.error CreateErr.quotaExceeded ↔
       name ≠ "" ∧ name.utf8ByteSize ≤ 50 ∧ findTag name d = none ∧
       10 ≤ countUserTags cid d.tags) ∧
    ((createTag env now cid cname name desc d).2.2 =
        Except.error CreateErr.descriptionTooLong ↔
       name ≠ "" ∧ name.utf8ByteSize ≤ 50 ∧ findTag name d = none ∧
       countUserTags cid d.tags < 10 ∧ 100 < desc.utf8ByteSize) ∧
    ((∃ e, (createTag env now cid cname name desc d).2.2 = Except.error e) →
       (createTag env now cid cname name desc d).1 = d ∧
       (createTag env now cid cname name desc d).2.1 = none) ∧
    (∀ tg, (createTag env now cid cname name desc d).2.2 = Except.ok tg →
       tg = ⟨name, cid, cname, desc, [], now⟩ ∧
       (createTag env now cid cname name desc d).1.tags = d.tags ++ [tg] ∧
       (createTag env now cid cname name desc d).2.1 = some (saveData env)) := by
  unfold createTag
  split_ifs with h1 h2 h3 h4 h5 <;>
    refine ⟨?_, ?_, ?_, ?_, ?_, ?_⟩ <;>
      simp_all [Option.not_isSome_iff_eq_none, Nat.not_lt, Nat.not_le] <;>
        first
          | omega
          | exact fun hno => absurd (hno ▸ h3) (by simp)

/-- C1 witness: a valid creation on an empty repository appends the new
tag, via the success clause of the characterization. -/
theorem c1_create_witness :
    (createTag ⟨false⟩ 0 1 "alice" "x" "" ⟨[]⟩).1.tags =
      ([] : List Tag) ++ [⟨"x", 1, "alice", "", [], 0⟩] :=
  ((c1_create_preconditions ⟨false⟩ 0 1 "alice" "x" "" ⟨[]⟩).2.2.2.2.2
    ⟨"x", 1, "alice", "", [], 0⟩ rfl).2.1

/-- C1 counterexample: the claim's clauses fail on the code at concrete
inputs. With a 101-character description AND a full quota, the code
replies `QuotaExceeded`, not the claim's `DescriptionTooLong` (the code
checks quota first). With an existing duplicate whose name is 26 Cyrillic
characters (52 UTF-8 bytes), the code replies `InvalidName` from its
byte-length check, not the claim's `DuplicateTag`, although the name is
neither empty nor longer than 50 characters. -/
theorem c1_counterexample :
    (descLong.length = 101 ∧ 100 < descLong.utf8ByteSize ∧
     countUserTags 1 quotaTags = 10 ∧ findTag "fresh" ⟨quotaTags⟩ = none ∧
     (createTag ⟨false⟩ 0 1 "alice" "fresh" descLong ⟨quotaTags⟩).2.2 =
       Except.error CreateErr.quotaExceeded) ∧
    (cyrName ≠ "" ∧ cyrName.length = 26 ∧ (findTag cyrName cyrData).isSome = true ∧
     (createTag ⟨false⟩ 0 2 "bob" cyrName "" cyrData).2.2 =
       Except.error CreateErr.invalidName) :=
  ⟨⟨by decide, by decide, rfl, rfl, rfl⟩, ⟨by decide, by decide, rfl, rfl⟩⟩

/-- C4: Subscribe is idempotent on stored state: starting from any
repository whose tags have duplicate-free subscriber ids, if the tag is
present then after one Subscribe the found tag holds exactly one entry
with the subscriber's id, and a second Subscribe with the same id returns
`AlreadySubscribed` and changes nothing (and does not persist). -/
theorem c4_subscribe_idempotent (env1 env2 : SaveEnv) (uid : Int) (un1 un2 name : String)
    (d : Data)
    (hinv : ∀ t ∈ d.tags, (t.subscribers.map Subscriber.id).Nodup)
    (hfound : (findTag name d).isSome = true) :
    ∃ i t, findTag name (subscribeTag env1 uid un1 name d).1 = some (i, t) ∧
      (t.subscribers.filter (fun s => s.id == uid)).length = 1 ∧
      subscribeTag env2 uid un2 name (subscribeTag env1 uid un1 name d).1 =
        ((subscribeTag env1 uid un1 name d).1, none,
         Except.error SubErr.alreadySubscribed) := by
  rw [Option.isSome_iff_exists] at hfound
  obtain ⟨⟨i, t⟩, h⟩ := hfound
  by_cases hin : t.subscribers.any (fun s => s.id == uid) = true
  · have h1 : subscribeTag env1 uid un1 name d =
        (d, none, Except.error SubErr.alreadySubscribed) := by
      simp only [subscribeTag, h]
      rw [if_pos hin]
    refine ⟨i, t, ?_, ?_, ?_⟩
    · rw [h1]
      exact h
    · exact filter_id_length_one uid t.subscribers
        (hinv t (findTagAux_mem (strToLower name) d.tags 0 i t h)) hin
    · rw [h1]
      simp only [subscribeTag, h]
      rw [if_pos hin]
  · have hin2 : t.subscribers.any (fun s => s.id == uid) = false :=
      Bool.eq_false_iff.mpr hin
    have h1 : subscribeTag env1 uid un1 name d =
        (⟨d.tags.set i { t with subscribers := t.subscribers ++
            [⟨uid, if un1 = "" then "User" ++ toString uid else un1⟩] }⟩,
         some (saveData env1), Except.ok ()) := by
      simp only [subscribeTag, h]
      rw [if_neg hin]
    have hfind2 : findTag name
        (⟨d.tags.set i { t with subscribers := t.subscribers ++
            [⟨uid, if un1 = "" then "User" ++ toString uid else un1⟩] }⟩ : Data) =
        some (i, { t with subscribers := t.subscribers ++
            [⟨uid, if un1 = "" then "User" ++ toString uid else un1⟩] }) := by
      have := findTagAux_set (strToLower name) d.tags 0 i t
        { t with subscribers := t.subscribers ++
            [⟨uid, if un1 = "" then "User" ++ toString uid else un1⟩] } h rfl
      simpa [findTag] using this
    refine ⟨i, { t with subscribers := t.subscribers ++
        [⟨uid, if un1 = "" then "User" ++ toString uid else un1⟩] }, ?_, ?_, ?_⟩
    · rw [h1]
      exact hfind2
    · have hnil := filter_id_eq_nil uid t.subscribers hin2
      simp [List.filter_append, hnil]
    · rw [h1]
      simp only [subscribeTag, hfind2]
      rw [if_pos (by simp [List.any_append])]

/-- C4 witness: subscribing user 7 twice to the tag `x` of `dX` leaves one
entry with id 7, and the second call reports `AlreadySubscribed`. -/
theorem c4_witness :
    ∃ i t, findTag "x" (subscribeTag ⟨false⟩ 7 "bob" "x" dX).1 = some (i, t) ∧
      (t.subscribers.filter (fun s => s.id == (7 : Int))).length = 1 ∧
      subscribeTag ⟨false⟩ 7 "bob" "x" (subscribeTag ⟨false⟩ 7 "bob" "x" dX).1 =
        ((subscribeTag ⟨false⟩ 7 "bob" "x" dX).1, none,
         Except.error SubErr.alreadySubscribed) :=
  c4_subscribe_idempotent ⟨false⟩ ⟨false⟩ 7 "bob" "bob" "x" dX (by decide) (by decide)

/-- C5: Delete fails with `NotFound` when no tag matches case-insensitively
(leaving everything unchanged); fails with `Forbidden`, leaving the
repository unchanged and unpersisted, unless the requester is the found
tag's creator or is privileged; on success it removes every tag whose name
matches case-insensitively, persists, and a subsequent Find of that name
returns `NotFound`. -/
theorem c5_delete_correct (env : SaveEnv) (uid : Int) (priv : Bool) (name : String)
    (d : Data) :
    (findTag name d = none →
       deleteTag env uid priv name d = (d, none, Except.error DelErr.notFound)) ∧
    (∀ i t, findTag name d = some (i, t) →
       (¬(uid = t.creatorID ∨ priv = true) →
          deleteTag env uid priv name d = (d, none, Except.error DelErr.forbidden)) ∧
       ((uid = t.creatorID ∨ priv = true) →
          (deleteTag env uid priv name d).2.2 = Except.ok () ∧
          (deleteTag env uid priv name d).2.1 = some (saveData env) ∧
          (deleteTag env uid priv name d).1.tags =
            d.tags.filter (fun t2 => strToLower t2.name != strToLower t.name) ∧
          findTag name (deleteTag env uid priv name d).1 = none)) := by
  constructor
  · intro hnone
    simp [deleteTag, hnone]
  · intro i t h
    constructor
    · intro hforb
      push_neg at hforb
      have hcond : t.creatorID ≠ uid ∧ priv = false := by
        refine ⟨fun he => hforb.1 he.symm, ?_⟩
        cases priv with
        | false => rfl
        | true => exact absurd rfl hforb.2
      simp only [deleteTag, h]
      rw [if_pos hcond]
    · intro hok
      have hcond : ¬(t.creatorID ≠ uid ∧ priv = false) := by
        rcases hok with he | hp
        · exact fun hc => hc.1 he.symm
        · intro hc
          rw [hp] at hc
          exact Bool.noConfusion hc.2
      have hd2 : deleteTag env uid priv name d =
          (⟨goFilter (fun t2 => strToLower t2.name != strToLower t.name) d.tags⟩,
           some (saveData env), Except.ok ()) := by
        simp only [deleteTag, h]
        rw [if_neg hcond]
      have hd2tags : (deleteTag env uid priv name d).1.tags =
          d.tags.filter (fun t2 => strToLower t2.name != strToLower t.name) := by
        rw [hd2]
        exact goFilter_eq_filter _ _
      refine ⟨by rw [hd2], by rw [hd2], hd2tags, ?_⟩
      have hname := findTagAux_name (strToLower name) d.tags 0 i t h
      refine (findTagAux_eq_none (strToLower name)
        ((deleteTag env uid priv name d).1.tags) 0).mpr ?_
      rw [hd2tags]
      intro t2 ht2
      rw [List.mem_filter] at ht2
      have hne := ht2.2
      rw [bne_iff_ne] at hne
      intro heq
      exact hne (heq.trans hname.symm)

/-- C5 witness: a non-creator, unprivileged requester is refused and the
creator's deletion removes the tag so that a case-varied Find misses. -/
theorem c5_witness :
    deleteTag ⟨false⟩ 7 false "x" dX = (dX, none, Except.error DelErr.forbidden) ∧
    (deleteTag ⟨false⟩ 1 false "X" dX).2.2 = Except.ok () ∧
    findTag "X" (deleteTag ⟨false⟩ 1 false "X" dX).1 = none := by
  have hforb := ((c5_delete_correct ⟨false⟩ 7 false "x" dX).2 0
    ⟨"x", 1, "alice", "", [], 0⟩ rfl).1 (by decide)
  have hok := ((c5_delete_correct ⟨false⟩ 1 false "X" dX).2 0
    ⟨"x", 1, "alice", "", [], 0⟩ rfl).2 (Or.inl rfl)
  exact ⟨hforb, hok.1, hok.2.2.2⟩

/-- C6: after a successful Create, a Find with any case variation of the
name returns the created tag (which sits at the end of storage and carries
the given fields); and Find returns `NotFound` exactly when no stored tag
name matches the query case-insensitively. -/
theorem c6_create_then_find (env : SaveEnv) (now cid : Int)
    (cname name desc q : String) (d d2 : Data)
    (s : Option (Except PersistErr Unit)) (tg : Tag)
    (hc : createTag env now cid cname name desc d = (d2, s, Except.ok tg))
    (hq : strToLower q = strToLower name) :
    findTag q d2 = some (d.tags.length, tg) ∧
    tg = ⟨name, cid, cname, desc, [], now⟩ ∧
    ∀ (q2 : String) (d3 : Data),
      findTag q2 d3 = none ↔ ∀ t ∈ d3.tags, strToLower t.name ≠ strToLower q2 := by
  have hthird : ∀ (q2 : String) (d3 : Data),
      findTag q2 d3 = none ↔ ∀ t ∈ d3.tags, strToLower t.name ≠ strToLower q2 :=
    fun q2 d3 => findTagAux_eq_none (strToLower q2) d3.tags 0
  unfold createTag at hc
  split_ifs at hc with h1 h2 h3 h4 h5
  · simp at hc
  · simp at hc
  · simp at hc
  · simp at hc
  · simp at hc
  · rw [Prod.ext_iff] at hc
    obtain ⟨hd2, hc2⟩ := hc
    rw [Prod.ext_iff] at hc2
    obtain ⟨hs, htg⟩ := hc2
    have htg2 : tg = ⟨name, cid, cname, desc, [], now⟩ := by
      have := htg.symm
      simpa using this
    have hnone : findTagAux (strToLower name) d.tags 0 = none := by
      cases hcase : findTag name d with
      | none => exact hcase
      | some p => exact absurd (by rw [hcase]; rfl) h3
    subst hd2
    refine ⟨?_, htg2, hthird⟩
    show findTagAux (strToLower q) (d.tags ++ [⟨name, cid, cname, desc, [], now⟩]) 0 =
      some (d.tags.length, tg)
    rw [findTagAux_append (strToLower q) d.tags _ 0 (by rw [hq]; exact hnone)]
    rw [htg2]
    simp [findTagAux, hq.symm]

/-- C6 witness: creating `lunch` on an empty repository and finding it as
`LUNCH` returns the created tag. -/
theorem c6_witness :
    findTag "LUNCH" ((createTag ⟨false⟩ 5 42 "alice" "lunch" "" ⟨[]⟩).1) =
      some (0, ⟨"lunch", 42, "alice", "", [], 5⟩) := by
  have h := c6_create_then_find ⟨false⟩ 5 42 "alice" "lunch" "" "LUNCH" ⟨[]⟩
    ⟨[⟨"lunch", 42, "alice", "", [], 5⟩]⟩ (some (saveData ⟨false⟩))
    ⟨"lunch", 42, "alice", "", [], 5⟩ rfl (by decide)
  exact h.1

/-- C7: List and Stats prune first: the surviving state is the filter of
the stored tags to those with subscribers (so no zero-subscriber tag
remains), a persist is attempted whenever a removal occurred (indeed
always), and the returned rows are one per remaining tag in storage
order. -/
theorem c7_list_stats_prune (env : SaveEnv) (d : Data) :
    (listTags env d).1.tags = d.tags.filter (fun t => 0 < t.subscribers.length) ∧
    (∀ t ∈ (listTags env d).1.tags, 0 < t.subscribers.length) ∧
    (listTags env d).2.2 =
      (listTags env d).1.tags.map (fun t => (t.name, t.subscribers.length, t.description)) ∧
    ((listTags env d).1.tags ≠ d.tags → ((listTags env d).2.1).isSome = true) ∧
    (statsTags env d).1 = (listTags env d).1 ∧
    (statsTags env d).2.2 =
      (statsTags env d).1.tags.map (fun t => (t.name, t.subscribers.length)) ∧
    ∀ t ∈ (statsTags env d).1.tags, 0 < t.subscribers.length := by
  have hfe : (listTags env d).1.tags = d.tags.filter (fun t => 0 < t.subscribers.length) := by
    simp [listTags, cleanEmptyTags, goFilter_eq_filter]
  have hmem : ∀ t ∈ (listTags env d).1.tags, 0 < t.subscribers.length := by
    intro t ht
    rw [hfe, List.mem_filter] at ht
    simpa using ht.2
  refine ⟨hfe, hmem, rfl, fun _ => rfl, rfl, rfl, hmem⟩

/-- C7 witness: on a repository holding a zero-subscriber tag, a removal
occurs and the persist attempt is recorded. -/
theorem c7_witness : ((listTags ⟨false⟩ dX).2.1).isSome = true :=
  (c7_list_stats_prune ⟨false⟩ dX).2.2.2.1 (by decide)
